/-
Verification of the SysAlertV2 monitoring and alerting service.

This file gives a shallow embedding, in Lean 4, of the parts of the
repository that the specification's claims are about:

* `services/monitor.py`  — the per-target probe `_check_target` and the
  consecutive-failure alert hysteresis;
* `services/tele_queue.py` — the delivery queue's retry/backoff loop
  `_send_with_backoff`;
* `services/benchmark.py` — the pure response-shape parser
  `_parse_possible_structures`;
* `db.py` / `models.py` — the encrypted store (`upsert_target`,
  `update_target_checked`, `delete_user_data` and the query helpers);
* `utils/crypto.py` — the `CryptoManager` wrapper around an AEAD
  primitive and an HMAC primitive.

Python strings holding binary data are represented as byte lists
(`List Nat`); machine reals that only flow through the control logic are
represented as rationals.  Randomness (nonces, jitter) is made an explicit
input.  The AES-GCM and HMAC-SHA256 primitives live in the third-party
`cryptography` library, outside this repository's sources; they are
modelled abstractly by their interface contracts as stated in the spec
(§4.1), and every theorem that relies on such a contract is instantiated
on an executable model that provably satisfies it.
-/
import Mathlib

namespace SysAlert

/-! ## Monitoring scheduler model (`services/monitor.py`) -/

/-- An alert message enqueued into the delivery queue by `_check_target`.
`down` carries the consecutive-failure count shown in the message;
`recovered` is the recovery message.  Both carry the target name. -/
inductive Alert where
  | down (name : String) (consecutive : Nat) (error : String) : Alert
  | recovered (name : String) : Alert
  deriving DecidableEq, Repr

/-- Whether an `Alert` is a DOWN alert. -/
def Alert.isDown : Alert → Bool
  | .down _ _ _ => true
  | .recovered _ => false

/-- One observable effect of a single probe, in the order `_check_target`
performs them. -/
inductive Ev where
  | history (chat : Int) (name : String) (status : String) (error : String) : Ev
  | updateTarget (targetId : Nat) (timestamp : Nat) (failed : Bool) : Ev
  | enqueue (chat : Int) (alert : Alert) : Ev
  deriving DecidableEq, Repr

def Ev.isUpdate : Ev → Bool
  | .updateTarget _ _ _ => true
  | _ => false

def Ev.isEnqueue : Ev → Bool
  | .enqueue _ _ => true
  | _ => false

/-- A `Customer` row (`models.py`): per-destination monitoring profile.
Note it carries its own `failure_threshold` column (default 3). -/
structure Customer where
  id : Nat
  chat_id : Int
  alerts_enabled : Bool := true
  interval_seconds : Nat := 60
  failure_threshold : Nat := 3
  deriving DecidableEq, Repr

/-- A `Target` row (`models.py`): a named monitored endpoint with
encrypted host:port, fingerprint, and scheduler-maintained state. -/
structure Target where
  id : Nat
  customer_id : Nat
  name : String
  encrypted_value : List Nat
  fingerprint : String
  enabled : Bool := true
  last_checked : Nat := 0
  consecutive_failures : Nat := 0
  deriving DecidableEq, Repr

/-- The slice of the flat configuration dict read by `_check_target`:
`config.get("failure_threshold", 3)` and `config.get("bot_name", ...)`. -/
structure Config where
  failure_threshold : Option Nat := none
  bot_name : Option String := none
  deriving DecidableEq, Repr

/-- `DB.update_target_checked` (db.py lines 217–225): set `last_checked`
to the given timestamp; increment `consecutive_failures` when the probe
failed, reset it to 0 on success. -/
def update_target_checked (t : Target) (timestamp : Nat) (failed : Bool) : Target :=
  { t with
    last_checked := timestamp
    consecutive_failures := if failed then t.consecutive_failures + 1 else 0 }

/-- The alert-decision step of `_check_target` (monitor.py lines
112–146): computed from `current_failures`, the counter value read
*before* this probe's `update_target_checked`, and from
`config.get("failure_threshold", 3)`.  On failure a DOWN message is
enqueued when `current_failures + 1 ≥ failure_threshold`; on success a
RECOVERED message is enqueued when `current_failures > 0`. -/
def alertEvents (cfg : Config) (cust : Customer) (t : Target)
    (success : Bool) (error_msg : String) : List Ev :=
  let current_failures := t.consecutive_failures
  let failure_threshold := cfg.failure_threshold.getD 3
  if !success then
    let consecutive := current_failures + 1
    if consecutive ≥ failure_threshold then
      [Ev.enqueue cust.chat_id (Alert.down t.name consecutive error_msg)]
    else []
  else
    if current_failures > 0 then
      [Ev.enqueue cust.chat_id (Alert.recovered t.name)]
    else []

/-- `_check_target` (monitor.py lines 74–146), given the outcome of the
TCP probe.  Returns the list of observable effects in program order and
the updated target row.  The source: (1) writes one History row; (2) reads
`current_failures` from the pre-update row; (3) persists
`update_target_checked`; (4) evaluates the alert decision from the
pre-update `current_failures` and enqueues at most one message. -/
def check_target (cfg : Config) (cust : Customer) (t : Target)
    (success : Bool) (error_msg : String) (now : Nat) : List Ev × Target :=
  let status := if success then "success" else "failure"
  let t' := update_target_checked t now (!success)
  (Ev.history cust.chat_id t.name status error_msg
      :: Ev.updateTarget t.id now (!success)
      :: alertEvents cfg cust t success error_msg,
   t')

/-- The alerts a single probe enqueues (projection of `check_target`). -/
def probeAlerts (cfg : Config) (cust : Customer) (t : Target)
    (success : Bool) (error_msg : String) (now : Nat) : List Alert :=
  (check_target cfg cust t success error_msg now).1.filterMap fun e =>
    match e with
    | .enqueue _ a => some a
    | _ => none

/-- Run a sequence of probe outcomes against one target, threading the
persisted `consecutive_failures` counter through; returns the per-probe
alert lists. -/
def runProbes (cfg : Config) (cust : Customer) :
    Target → List Bool → List (List Alert)
  | _, [] => []
  | t, success :: rest =>
      probeAlerts cfg cust t success "err" 0
        :: runProbes cfg cust (check_target cfg cust t success "err" 0).2 rest

/-- The ordering property claimed by the spec for one probe's effect
trace: every alert enqueue precedes the counter-update persist. -/
def alertsPrecedeCounterUpdate (tr : List Ev) : Prop :=
  ∀ (i j : Nat) (hi : i < tr.length) (hj : j < tr.length),
    (tr[i]).isEnqueue = true → (tr[j]).isUpdate = true → i < j

/-! ## Delivery queue model (`services/tele_queue.py`) -/

/-- The `TeleQueue._stats` counters (tele_queue.py line 31). -/
structure QStats where
  sent : Nat := 0
  failed : Nat := 0
  dropped : Nat := 0
  deriving DecidableEq, Repr

/-- The `while item["attempts"] < self._max_attempts` loop of
`TeleQueue._send_with_backoff` (tele_queue.py lines 88–123), embedded
with explicit fuel `maxAttempts - attempts`, so the loop guard
`attempts < maxAttempts` is exactly `fuel > 0`.  `sendOk n` tells whether
the transport callback succeeds on the attempt made with counter value
`n`; `jitter n` is the value `random.uniform(0, 0.5)` drew before the
sleep that follows failed attempt number `n`.  Returns the final counters
and the list of backoff sleep durations, in order.  On success: `sent`
increments and the loop returns.  On failure: the attempt counter and
`failed` increment, the delay `min 60 (2^(attempts-1) + jitter)` is slept
only when the counter is still below `maxAttempts`, and the loop
re-enters.  When the guard fails, `dropped` increments (lines 122–123). -/
def send_with_backoff_loop (maxAttempts : Nat) (sendOk : Nat → Bool) (jitter : Nat → ℚ) :
    Nat → Nat → QStats → List ℚ → QStats × List ℚ
  | 0, _, stats, sleeps => ({ stats with dropped := stats.dropped + 1 }, sleeps)
  | fuel + 1, attempts, stats, sleeps =>
      if sendOk attempts then
        ({ stats with sent := stats.sent + 1 }, sleeps)
      else
        let attempts' := attempts + 1
        let stats' := { stats with failed := stats.failed + 1 }
        let delay := min 60 ((2 : ℚ) ^ (attempts' - 1) + jitter attempts')
        if attempts' < maxAttempts then
          send_with_backoff_loop maxAttempts sendOk jitter fuel attempts' stats' (sleeps ++ [delay])
        else
          send_with_backoff_loop maxAttempts sendOk jitter fuel attempts' stats' sleeps

/-- `_send_with_backoff` on a freshly dequeued item (`attempts` starts
at 0, per `enqueue`, tele_queue.py line 60), from given initial
counters. -/
def send_with_backoff (maxAttempts : Nat) (sendOk : Nat → Bool) (jitter : Nat → ℚ)
    (stats : QStats) : QStats × List ℚ :=
  send_with_backoff_loop maxAttempts sendOk jitter maxAttempts 0 stats []

/-! ## Benchmark response parser (`services/benchmark.py`)

`_parse_possible_structures` inspects a decoded JSON value.  Following
the spec's §9 design note, the supported shapes are a closed tagged
union: a list of CSV-like strings, a list of `{name, data}` objects, or
a mapping from names to series.  JSON numbers are rationals; Python's
`int(...)` string/number conversions are the explicit parameters
`toIntStr` (for `int(s)` on a stripped CSV field, `None` when it raises
`ValueError`) and `toFloatStr` (likewise for `float(s)`); `pyTrunc`
models `int(x)` on a number (truncation toward zero). -/

/-- One `{"name": ..., "data": [[ts, value], ...]}` object of the
list-of-objects response shape. -/
structure BenchSeries where
  name : String
  data : List (List ℚ)
  deriving Repr

/-- The closed set of response shapes `_parse_possible_structures`
handles (benchmark.py lines 12–48, spec §9). -/
inductive BenchData where
  | csv (lines : List String) : BenchData
  | objs (items : List BenchSeries) : BenchData
  | table (entries : List (String × List (List ℚ))) : BenchData

/-- Python `int(x)` on a JSON number: truncation toward zero. -/
def pyTrunc (q : ℚ) : Int := q.num.tdiv q.den

/-- Python's whitespace set for `str.strip()`. -/
def isPySpace (c : Char) : Bool :=
  c == ' ' || c == '\t' || c == '\n' || c == '\r' || c == '\x0b' || c == '\x0c'

/-- Python `str.strip()` on a character list. -/
def pyStrip (cs : List Char) : List Char :=
  ((cs.dropWhile isPySpace).reverse.dropWhile isPySpace).reverse

/-- Python `str.split(',')` on a character list: always returns at least
one (possibly empty) field. -/
def splitComma : List Char → List (List Char)
  | [] => [[]]
  | c :: rest =>
      let r := splitComma rest
      if c = ',' then [] :: r
      else
        match r with
        | [] => [[c]]
        | g :: gs => (c :: g) :: gs

/-- The CSV-branch scan (benchmark.py lines 15–26): for each line, split
on `','`; when there are at least three fields and the stripped first
field equals the target name, try to parse the timestamp and value; on
`ValueError` (either parse returns `none`) continue with the next line;
return the first successfully parsed matching row. -/
def csvScan (toIntStr : List Char → Option Int) (toFloatStr : List Char → Option ℚ)
    (target : String) : List String → Option (Int × ℚ)
  | [] => none
  | line :: rest =>
      match splitComma line.data with
      | p0 :: p1 :: p2 :: _ =>
          if pyStrip p0 = target.data then
            match toIntStr (pyStrip p1), toFloatStr (pyStrip p2) with
            | some ts, some val => some (ts, val)
            | _, _ => csvScan toIntStr toFloatStr target rest
          else csvScan toIntStr toFloatStr target rest
      | _ => csvScan toIntStr toFloatStr target rest

/-- The list-of-objects scan (benchmark.py lines 29–37): find an item
whose `name` equals the target; when its `data` series is non-empty and
its last point has at least two entries, return that last point;
otherwise keep scanning. -/
def objsScan (target : String) : List BenchSeries → Option (Int × ℚ)
  | [] => none
  | item :: rest =>
      if item.name = target then
        match item.data.getLast? with
        | some lastPoint =>
            if lastPoint.length ≥ 2 then
              some (pyTrunc lastPoint[0]!, lastPoint[1]!)
            else objsScan target rest
        | none => objsScan target rest
      else objsScan target rest

/-- Python `target_name in data` / `data[target_name]` on a dict,
modelled as first-key lookup in the entry list. -/
def tableLookup (target : String) : List (String × List (List ℚ)) → Option (List (List ℚ))
  | [] => none
  | (k, v) :: rest => if k = target then some v else tableLookup target rest

/-- `_parse_possible_structures` (benchmark.py lines 12–48).  An empty
list falls through every branch and yields `none`, as in the source
(`len(data) > 0` guard).  The mapping branch (lines 40–46) returns the
last point of the series stored under the target name when that point
has at least two entries. -/
def parse_possible_structures (toIntStr : List Char → Option Int)
    (toFloatStr : List Char → Option ℚ) (data : BenchData) (target : String) :
    Option (Int × ℚ) :=
  match data with
  | .csv lines => if lines.isEmpty then none else csvScan toIntStr toFloatStr target lines
  | .objs items => if items.isEmpty then none else objsScan target items
  | .table entries =>
      match tableLookup target entries with
      | some series =>
          match series.getLast? with
          | some lastPoint =>
              if lastPoint.length ≥ 2 then
                some (pyTrunc lastPoint[0]!, lastPoint[1]!)
              else none
          | none => none
      | none => none

/-- The per-line result of the CSV branch: `some (ts, val)` when this
line alone would match the target and parse. -/
def csvRowResult (toIntStr : List Char → Option Int) (toFloatStr : List Char → Option ℚ)
    (target : String) (line : String) : Option (Int × ℚ) :=
  match splitComma line.data with
  | p0 :: p1 :: p2 :: _ =>
      if pyStrip p0 = target.data then
        match toIntStr (pyStrip p1), toFloatStr (pyStrip p2) with
        | some ts, some val => some (ts, val)
        | _, _ => none
      else none
  | _ => none

/-- Concrete numeric-field parsers used only to instantiate the scan's
parameters on the repository's own test vectors: finite lookup tables
for the fields appearing there. -/
def toIntTest (cs : List Char) : Option Int :=
  if cs = "1600000300".toList then some 1600000300
  else if cs = "1600000400".toList then some 1600000400
  else none

/-- See `toIntTest`; `"nope"` deliberately has no entry, modelling a
`ValueError` from `float(...)`/`int(...)`. -/
def toFloatTest (cs : List Char) : Option ℚ :=
  if cs = "0.37".toList then some (37 / 100)
  else if cs = "0.45".toList then some (45 / 100)
  else none

/-! ## Encrypted store model (`db.py`, `models.py`)

The relational state is a record of row lists, one per table; the
`scoped_session` queries become list scans.  SQLAlchemy's
`query(...).first()` is a first-match scan, `.delete()` on a filtered
query is a bulk filter, and `session.delete` of an object found by
`.first()` removes exactly that first match (`List.eraseP`).  The
`CryptoManager` calls made by the store are explicit function
parameters, since the claims about the store are about which rows it
touches, not about the cipher. -/

/-- A `Subscription` row (`models.py`). -/
structure Subscription where
  chat_id : Int
  created_at : Nat
  deriving DecidableEq, Repr

/-- A `BenchmarkTarget` row (`models.py`): `chat_id` is *not* unique —
multiple benchmark targets per destination are allowed. -/
structure BenchmarkTargetRow where
  id : Nat
  chat_id : Int
  encrypted_value : List Nat
  fingerprint : String
  network : String := "mainnet"
  created_at : Nat
  deriving DecidableEq, Repr

/-- A `History` row (`models.py`). -/
structure HistoryRow where
  timestamp : Nat
  customer_chat_id : Int
  target_name : String
  status : String
  error : String
  response_time : ℚ
  deriving DecidableEq, Repr

/-- An `AuditLog` row (`models.py`). -/
structure AuditRow where
  actor_chat_id : Int
  action : String
  details : String
  created_at : Nat
  deriving DecidableEq, Repr

/-- The whole relational state owned by `DB`. -/
structure Store where
  subscriptions : List Subscription
  customers : List Customer
  targets : List Target
  benchmark_targets : List BenchmarkTargetRow
  history : List HistoryRow
  audit_logs : List AuditRow
  deriving DecidableEq, Repr

/-- `DB.is_subscribed` (db.py lines 97–99). -/
def is_subscribed (chat : Int) (s : Store) : Bool :=
  s.subscriptions.any (·.chat_id == chat)

/-- `DB.get_customer_by_chat` (db.py lines 103–108):
`query(Customer).filter_by(chat_id=chat_id).first()`. -/
def get_customer_by_chat (chat : Int) (s : Store) : Option Customer :=
  s.customers.find? (·.chat_id == chat)

/-- `DB.list_benchmark_targets` (db.py lines 276–285): all rows for the
chat, each decrypted to `(target_name, network)`. -/
def list_benchmark_targets (decrypt : List Nat → String) (chat : Int) (s : Store) :
    List (String × String) :=
  (s.benchmark_targets.filter (·.chat_id == chat)).map fun bt =>
    (decrypt bt.encrypted_value, bt.network)

/-- `DB.delete_user_data` (db.py lines 348–378), one transaction:
delete the first `Customer` row matching the chat (SQLAlchemy cascades
to its `Target`s), delete the **first** `BenchmarkTarget` row matching
the chat (`.first()` in the source), bulk-delete the chat's `History`
rows, delete the chat's `Subscription`, then append one `AuditLog` row
recording the deletion. -/
def delete_user_data (chat : Int) (now : Nat) (s : Store) : Store :=
  let customers' : List Customer := s.customers.eraseP (·.chat_id == chat)
  let targets' : List Target :=
    match s.customers.find? (·.chat_id == chat) with
    | some c => s.targets.filter fun t => !(t.customer_id == c.id)
    | none => s.targets
  { subscriptions := s.subscriptions.eraseP (·.chat_id == chat)
    customers := customers'
    targets := targets'
    benchmark_targets := s.benchmark_targets.eraseP (·.chat_id == chat)
    history := s.history.filter fun h => !(h.customer_chat_id == chat)
    audit_logs := s.audit_logs ++
      [{ actor_chat_id := chat, action := "delete_account",
         details := "User deleted all data", created_at := now }] }

/-- The row-list transformation of `DB.upsert_target` (db.py lines
141–164): find the first `Target` with the given `(customer_id, name)`;
if found, overwrite its ciphertext and fingerprint and set
`enabled = True`; otherwise add a new row (column defaults from
`models.py`: `enabled = True`, `last_checked = 0`,
`consecutive_failures = 0`). -/
def upsertTargetList (encrypted_value : List Nat) (fingerprint : String)
    (customer_id : Nat) (name : String) (newId : Nat) : List Target → List Target
  | [] => [{ id := newId, customer_id := customer_id, name := name,
             encrypted_value := encrypted_value, fingerprint := fingerprint,
             enabled := true, last_checked := 0, consecutive_failures := 0 }]
  | t :: rest =>
      if t.customer_id == customer_id && t.name == name then
        { t with encrypted_value := encrypted_value, fingerprint := fingerprint,
                 enabled := true } :: rest
      else
        t :: upsertTargetList encrypted_value fingerprint customer_id name newId rest

/-- `DB.upsert_target` (db.py lines 141–164): build
`target_spec = f"{ip}:{port}"`, encrypt it and fingerprint it — both
from the same plaintext — then insert-or-update the row. -/
def upsert_target (encrypt : String → List Nat) (hash_value : String → String)
    (customer_id : Nat) (name ip : String) (port : Nat) (newId : Nat) (s : Store) : Store :=
  let target_spec := ip ++ ":" ++ toString port
  let encrypted_value := encrypt target_spec
  let fingerprint := hash_value target_spec
  { s with targets := upsertTargetList encrypted_value fingerprint customer_id name newId s.targets }

/-- A concrete store for destination 5 holding a subscription, a
customer with one target, one history row, and **two** benchmark
targets — the configuration on which `delete_user_data` fails to purge
everything. -/
def twoBenchStore : Store :=
  { subscriptions := [{ chat_id := 5, created_at := 0 }]
    customers := [{ id := 1, chat_id := 5 }]
    targets := [{ id := 1, customer_id := 1, name := "srv",
                  encrypted_value := [0], fingerprint := "f" }]
    benchmark_targets :=
      [{ id := 1, chat_id := 5, encrypted_value := [1], fingerprint := "fa", created_at := 0 },
       { id := 2, chat_id := 5, encrypted_value := [2], fingerprint := "fb",
         network := "testnet", created_at := 0 }]
    history := [{ timestamp := 0, customer_chat_id := 5, target_name := "srv",
                  status := "failure", error := "e", response_time := 0 }]
    audit_logs := [] }

/-! ## CryptoManager model (`utils/crypto.py`)

The AES-GCM and HMAC-SHA256/PBKDF2 primitives are third-party library
code (`cryptography`, `hmac`, `hashlib`), not part of this repository's
sources.  They are modelled abstractly: an `AEAD` is a pair of
encryption/decryption functions, and the properties the spec's §4.1
attributes to the primitive (round-trip correctness, authentication-tag
verification that rejects any tampered or wrong-key blob, the 128-bit
tag) are stated as explicit contracts.  Every theorem assuming a
contract is also instantiated on `toyAEAD`, an executable model proved
to satisfy all of them.  Byte strings are `List Nat`; the nonce drawn by
`os.urandom(12)` is an explicit argument. -/

/-- Byte strings. -/
abbrev Bytes := List Nat

/-- An AEAD primitive: `enc key nonce plaintext` and
`dec key nonce ciphertext` (the ciphertext carries its tag). -/
structure AEAD where
  enc : Bytes → Bytes → Bytes → Bytes
  dec : Bytes → Bytes → Bytes → Option Bytes

/-- Modelled from the spec (§4.1): round-trip correctness of the AEAD
primitive for 256-bit keys and 96-bit nonces. -/
def AEAD.Correct (A : AEAD) : Prop :=
  ∀ k n p, k.length = 32 → n.length = 12 → A.dec k n (A.enc k n p) = some p

/-- Modelled from the spec (§4.1): the 128-bit authentication tag means
no ciphertext shorter than 16 bytes ever decrypts. -/
def AEAD.TagMin (A : AEAD) : Prop :=
  ∀ k n c p, A.dec k n c = some p → 16 ≤ c.length

/-- Modelled from the spec (§4.1): ciphertext integrity — a blob only
decrypts when it is exactly an encryption of the returned plaintext
under the same key and nonce ("fails ... when the tag does not
verify"). -/
def AEAD.Auth (A : AEAD) : Prop :=
  ∀ k n c p, A.dec k n c = some p → c = A.enc k n p

/-- Modelled from the spec (§4.1): the authentication tag binds key,
nonce and plaintext — valid ciphertexts under distinct keys or nonces
never collide ("wrong key ... fails"). -/
def AEAD.Binding (A : AEAD) : Prop :=
  ∀ k n p k' n' p', k.length = 32 → k'.length = 32 → n.length = 12 → n'.length = 12 →
    A.enc k n p = A.enc k' n' p' → k = k' ∧ n = n' ∧ p = p'

/-- Modelled from the spec (§8 tamper detection): any actual single-byte
modification of a valid ciphertext is not a valid ciphertext for any
plaintext under the same key and nonce. -/
def AEAD.OneFlip (A : AEAD) : Prop :=
  ∀ k n p q i b, (A.enc k n p).set i b ≠ A.enc k n p →
    (A.enc k n p).set i b ≠ A.enc k n q

/-- `CryptoManager.__init__` derives two independent keys from the
decoded master secret (crypto.py lines 17–40); the PBKDF2 derivation is
the explicit `kdf` parameter, applied to the two distinct fixed salts. -/
structure CryptoManager where
  enc_key : Bytes
  hmac_key : Bytes
  deriving DecidableEq, Repr

/-- The fixed encryption-key salt `b"sysalert_enc_salt_v1"`. -/
def encSalt : Bytes := "sysalert_enc_salt_v1".toList.map Char.toNat

/-- The fixed HMAC-key salt `b"sysalert_hmac_salt_v1"`. -/
def hmacSalt : Bytes := "sysalert_hmac_salt_v1".toList.map Char.toNat

/-- `CryptoManager.__init__` (crypto.py lines 17–40): both keys derive
from the same decoded master secret, under the two distinct salts. -/
def mkCryptoManager (kdf : Bytes → Bytes → Bytes) (master : Bytes) : CryptoManager :=
  { enc_key := kdf master encSalt, hmac_key := kdf master hmacSalt }

/-- `CryptoManager.encrypt` (crypto.py lines 42–46): AEAD-encrypt under
the derived encryption key with a fresh 12-byte nonce, and return
`nonce ++ ciphertext`. -/
def CryptoManager.encrypt (A : AEAD) (cm : CryptoManager) (nonce plaintext : Bytes) : Bytes :=
  nonce ++ A.enc cm.enc_key nonce plaintext

/-- `CryptoManager.decrypt` (crypto.py lines 48–53): split the first 12
bytes as the nonce and AEAD-decrypt the remainder; `none` models the
`InvalidTag`/decoding exception path. -/
def CryptoManager.decrypt (A : AEAD) (cm : CryptoManager) (blob : Bytes) : Option Bytes :=
  A.dec cm.enc_key (blob.take 12) (blob.drop 12)

/-- Duplicate every byte: the executable toy AEAD encodes with byte
doubling so that any single-byte change is detectable. -/
def dupBytes (l : Bytes) : Bytes :=
  l.flatMap fun a => [a, a]

/-- Inverse of `dupBytes`: succeeds only on exact byte-doubled strings. -/
def undupBytes : Bytes → Option Bytes
  | [] => some []
  | [_] => none
  | a :: b :: rest => if a = b then (undupBytes rest).map (a :: ·) else none

/-- An executable AEAD satisfying all the §4.1 contracts: the
"ciphertext" is the byte-doubling of `plaintext ++ nonce ++ key`, so the
suffix plays the role of the authentication tag and the doubling makes
every single-byte change invalid.  (A caricature of a cipher — it is
used only to witness that the contracts are satisfiable.) -/
def toyAEAD : AEAD where
  enc := fun k n p => dupBytes (p ++ n ++ k)
  dec := fun k n c =>
    match undupBytes c with
    | some m =>
        if 44 ≤ m.length ∧ m.drop (m.length - 44) = n ++ k then
          some (m.take (m.length - 44))
        else none
    | none => none

/-- One lowercase hex digit. -/
def hexChar (d : Nat) : Char :=
  if d < 10 then Char.ofNat (48 + d) else Char.ofNat (87 + d)

/-- Two lowercase hex digits of one byte. -/
def byteHex (b : Nat) : List Char :=
  [hexChar (b / 16), hexChar (b % 16)]

/-- Python's `.hexdigest()`: the lowercase hex string of a byte
string. -/
def hexdigest (bs : Bytes) : String :=
  ⟨bs.flatMap byteHex⟩

/-- `CryptoManager.hash_value` (crypto.py lines 55–58): the hex digest
of `hmac.new(self.hmac_key, value, sha256)`; the HMAC-SHA256 primitive
is the explicit `hmacFn` parameter. -/
def CryptoManager.hash_value (hmacFn : Bytes → Bytes → Bytes) (cm : CryptoManager)
    (value : Bytes) : String :=
  hexdigest (hmacFn cm.hmac_key value)

/-- A concrete manager for witnesses: the KDF parameter is a constant
function to a 32-byte key. -/
def cmW : CryptoManager := mkCryptoManager (fun _ _ => List.replicate 32 1) []

/-- A second concrete manager with a different 32-byte key. -/
def cmW2 : CryptoManager := mkCryptoManager (fun _ _ => List.replicate 32 2) []

/-- A concrete 12-byte nonce for witnesses. -/
def nonceW : Bytes := List.replicate 12 0

/-- A concrete HMAC stand-in for witnesses: 31 zero bytes followed by the
byte-sum of the message mod 256 — always 32 bytes, all below 256. -/
def hmacW (k m : Bytes) : Bytes :=
  List.replicate 31 0 ++ [(k.length + m.foldl (· + ·) 0) % 256]

/-! ## Theorems -/

/-! ### Helper lemmas (shared) -/

lemma alertEvents_all_enqueue (cfg : Config) (cust : Customer) (t : Target)
    (success : Bool) (e : String) :
    ∀ a ∈ alertEvents cfg cust t success e, a.isEnqueue = true := by
  intro a ha
  simp only [alertEvents] at ha
  split at ha <;> split at ha <;> simp_all [Ev.isEnqueue]

lemma alertEvents_down_count (cfg : Config) (cust : Customer) (t : Target)
    (success : Bool) (e : String) (chat : Int) (name err : String) (k : Nat)
    (h : Ev.enqueue chat (Alert.down name k err) ∈ alertEvents cfg cust t success e) :
    k = t.consecutive_failures + 1 := by
  simp only [alertEvents] at h
  split at h <;> split at h <;> simp_all

lemma trace_order_aux (h u : Ev) (alerts : List Ev)
    (hhU : h.isUpdate = false) (hhE : h.isEnqueue = false)
    (huE : u.isEnqueue = false)
    (hA : ∀ a ∈ alerts, a.isUpdate = false) :
    ∀ (i j : Nat) (hi : i < (h :: u :: alerts).length) (hj : j < (h :: u :: alerts).length),
      ((h :: u :: alerts)[i]).isUpdate = true →
      ((h :: u :: alerts)[j]).isEnqueue = true → i < j := by
  intro i j hi hj hiU hjE
  match i, j with
  | 0, _ => simp [hhU] at hiU
  | 1, 0 => simp [hhE] at hjE
  | 1, 1 => simp [huE] at hjE
  | 1, j + 2 => omega
  | i + 2, _ =>
      have hlen : i < alerts.length := by
        simp only [List.length_cons] at hi; omega
      have hmem : alerts[i] ∈ alerts := List.getElem_mem hlen
      have hfalse := hA _ hmem
      simp only [List.getElem_cons_succ] at hiU
      simp [hfalse] at hiU

/-! ### C1 — cascade delete (`delete_user_data`) -/

/-- C1: on a destination with **two** benchmark targets, `delete_user_data`
removes the subscription, the customer with its targets, and the history,
and appends exactly one audit row — but, against the claim, the
benchmark-target lookup does *not* return empty: the source deletes only
the `.first()` matching `BenchmarkTarget` row, leaving the second one
behind. -/
theorem delete_user_data_misses_second_benchmark_target :
    is_subscribed 5 (delete_user_data 5 99 twoBenchStore) = false ∧
    get_customer_by_chat 5 (delete_user_data 5 99 twoBenchStore) = none ∧
    (delete_user_data 5 99 twoBenchStore).targets = [] ∧
    (delete_user_data 5 99 twoBenchStore).history = [] ∧
    (delete_user_data 5 99 twoBenchStore).audit_logs =
      [{ actor_chat_id := 5, action := "delete_account",
         details := "User deleted all data", created_at := 99 }] ∧
    list_benchmark_targets (fun _ => "x") 5 (delete_user_data 5 99 twoBenchStore) =
      [("x", "testnet")] ∧
    list_benchmark_targets (fun _ => "x") 5 (delete_user_data 5 99 twoBenchStore) ≠ [] := by
  refine ⟨by decide, by decide, by decide, by decide, by decide, by decide, by decide⟩

/-! ### C2 — alert hysteresis -/

/-- C2 counterexample: with `failure_threshold = 3` and the counter at 0,
two failed probes followed by a successful one do **not** enqueue zero
alerts — the success finds `current_failures = 2 > 0` and enqueues a
RECOVERED message (monitor.py lines 134–146). -/
theorem two_failures_then_success_enqueues_recovered :
    (runProbes { failure_threshold := some 3 } { id := 1, chat_id := 5 }
        { id := 1, customer_id := 1, name := "srv", encrypted_value := [], fingerprint := "" }
        [false, false, true]).flatten = [Alert.recovered "srv"] ∧
    ¬ ((runProbes { failure_threshold := some 3 } { id := 1, chat_id := 5 }
        { id := 1, customer_id := 1, name := "srv", encrypted_value := [], fingerprint := "" }
        [false, false, true]).flatten = []) := by
  constructor <;> decide

/-- C2 amended: with `failure_threshold = 3` and the counter at 0, three
consecutive failures enqueue exactly one DOWN alert, on the third probe;
a subsequent success enqueues exactly one RECOVERED alert; two failures
followed by a success enqueue no DOWN alert but one RECOVERED alert (on
the success); and `update_target_checked` increments the counter on each
failure and resets it to 0 on success. -/
theorem alert_hysteresis_amended (cfg : Config) (cust : Customer) (t : Target)
    (hth : cfg.failure_threshold.getD 3 = 3) (hcf : t.consecutive_failures = 0) :
    runProbes cfg cust t [false, false, false]
      = [[], [], [Alert.down t.name 3 "err"]] ∧
    runProbes cfg cust t [false, false, false, true]
      = [[], [], [Alert.down t.name 3 "err"], [Alert.recovered t.name]] ∧
    runProbes cfg cust t [false, false, true]
      = [[], [], [Alert.recovered t.name]] ∧
    (∀ (t2 : Target) (e : String) (now : Nat),
      (check_target cfg cust t2 false e now).2.consecutive_failures
        = t2.consecutive_failures + 1 ∧
      (check_target cfg cust t2 true e now).2.consecutive_failures = 0) := by
  refine ⟨?_, ?_, ?_, fun t2 e now => ⟨?_, ?_⟩⟩ <;>
    simp [runProbes, probeAlerts, check_target, alertEvents, update_target_checked, hth, hcf]

/-- C2 witness: the amended theorem applied at a concrete config, customer
and fresh target. -/
theorem alert_hysteresis_amended_witness :
    runProbes { failure_threshold := some 3 } { id := 1, chat_id := 5 }
        { id := 1, customer_id := 1, name := "srv", encrypted_value := [], fingerprint := "" }
        [false, false, true]
      = [[], [], [Alert.recovered "srv"]] ∧
    (check_target { failure_threshold := some 3 } { id := 1, chat_id := 5 }
        { id := 1, customer_id := 1, name := "srv", encrypted_value := [], fingerprint := "" }
        false "x" 7).2.consecutive_failures = 0 + 1 :=
  ⟨(alert_hysteresis_amended { failure_threshold := some 3 } { id := 1, chat_id := 5 }
      { id := 1, customer_id := 1, name := "srv", encrypted_value := [], fingerprint := "" }
      rfl rfl).2.2.1,
   ((alert_hysteresis_amended { failure_threshold := some 3 } { id := 1, chat_id := 5 }
      { id := 1, customer_id := 1, name := "srv", encrypted_value := [], fingerprint := "" }
      rfl rfl).2.2.2
      { id := 1, customer_id := 1, name := "srv", encrypted_value := [], fingerprint := "" }
      "x" 7).1⟩

/-! ### C3 — delivery retry/drop and backoff -/

lemma send_loop_always_fail (jitter : Nat → ℚ) :
    ∀ (fuel attempts : Nat) (s : QStats) (sleeps : List ℚ),
      send_with_backoff_loop (attempts + fuel) (fun _ => false) jitter fuel attempts s sleeps =
        ({ s with failed := s.failed + fuel, dropped := s.dropped + 1 },
         sleeps ++ (List.range' (attempts + 1) (fuel - 1)).map
            (fun n => min 60 ((2 : ℚ) ^ (n - 1) + jitter n))) := by
  intro fuel
  induction fuel with
  | zero => intro attempts s sleeps; simp [send_with_backoff_loop]
  | succ f ih =>
      intro attempts s sleeps
      rw [send_with_backoff_loop]
      simp only [if_neg (by simp : ¬ (false = true))]
      by_cases hf : 0 < f
      · rw [if_pos (by omega)]
        have h1 : attempts + (f + 1) = (attempts + 1) + f := by omega
        rw [h1, ih (attempts + 1) _ _]
        rw [Prod.mk.injEq]
        refine ⟨by simp; omega, ?_⟩
        have hf2 : f + 1 - 1 = (f - 1) + 1 := by omega
        rw [hf2, List.range'_succ]
        simp [List.append_assoc]
      · have hf0 : f = 0 := by omega
        subst hf0
        rw [if_neg (by omega)]
        have h1 : attempts + 1 = (attempts + 1) + 0 := by omega
        rw [h1, ih (attempts + 1) _ _]
        simp

/-- C3: with a transport callback that always raises, processing one item
makes exactly `maxAttempts` attempts — the `failed` counter increases by
exactly `maxAttempts`, `dropped` by exactly one, `sent` not at all, and
the loop then returns, never touching the item again — and the backoff
sleeps are, in order, `min 60 (2^(n-1) + jitter n)` after each non-final
failed attempt `n = 1, …, maxAttempts - 1`. -/
theorem queue_retry_drop_counts (maxAttempts : Nat) (jitter : Nat → ℚ) (s : QStats) :
    send_with_backoff maxAttempts (fun _ => false) jitter s =
      ({ s with failed := s.failed + maxAttempts, dropped := s.dropped + 1 },
       (List.range' 1 (maxAttempts - 1)).map
          (fun n => min 60 ((2 : ℚ) ^ (n - 1) + jitter n))) := by
  have h := send_loop_always_fail jitter maxAttempts 0 s []
  simpa [send_with_backoff] using h

/-! ### C8 — ordering of effects within one probe -/

/-- C8 counterexample: on a probe that enqueues a DOWN alert (threshold 3,
counter at 2, failed probe), the effect trace is
`[history, updateTarget, enqueue]` — the counter update is persisted
*before* the alert message is enqueued, so "alert decision precedes
counter update" fails as stated. -/
theorem counter_update_precedes_alert_enqueue :
    ¬ alertsPrecedeCounterUpdate
      (check_target { failure_threshold := some 3 } { id := 1, chat_id := 5 }
        { id := 1, customer_id := 1, name := "srv", encrypted_value := [], fingerprint := "",
          consecutive_failures := 2 } false "err" 7).1 := by
  intro h
  have h21 := h 2 1 (by decide) (by decide) (by decide) (by decide)
  omega

/-- C8 amended: within one probe the History write is always the first
effect; the persisted counter update always precedes every alert enqueue;
and the alert decision still uses the counter value observed before this
probe's update — any DOWN alert in the trace carries
`consecutive_failures + 1` computed from the pre-update row. -/
theorem probe_effect_order_amended (cfg : Config) (cust : Customer) (t : Target)
    (success : Bool) (e : String) (now : Nat) :
    ((check_target cfg cust t success e now).1.head? =
      some (Ev.history cust.chat_id t.name (if success then "success" else "failure") e)) ∧
    (∀ (i j : Nat) (hi : i < (check_target cfg cust t success e now).1.length)
        (hj : j < (check_target cfg cust t success e now).1.length),
      ((check_target cfg cust t success e now).1[i]).isUpdate = true →
      ((check_target cfg cust t success e now).1[j]).isEnqueue = true → i < j) ∧
    (∀ (chat : Int) (name err : String) (k : Nat),
      Ev.enqueue chat (Alert.down name k err) ∈ (check_target cfg cust t success e now).1 →
      k = t.consecutive_failures + 1) := by
  refine ⟨by simp [check_target], ?_, ?_⟩
  · show ∀ _, _
    exact trace_order_aux _ _ _ (by simp [Ev.isUpdate]) (by simp [Ev.isEnqueue])
      (by simp [Ev.isEnqueue])
      (fun a ha => by
        have := alertEvents_all_enqueue cfg cust t success e a ha
        cases a <;> simp_all [Ev.isEnqueue, Ev.isUpdate])
  · intro chat name err k hmem
    simp only [check_target, List.mem_cons] at hmem
    rcases hmem with h1 | h2 | h3
    · cases h1
    · cases h2
    · exact alertEvents_down_count cfg cust t success e chat name err k h3

/-- C8 witness: the amended ordering theorem applied on the
counterexample's trace — the update at index 1 precedes the enqueue at
index 2, and the enqueued DOWN alert carries `2 + 1`. -/
theorem probe_effect_order_amended_witness :
    ((check_target { failure_threshold := some 3 } { id := 1, chat_id := 5 }
        { id := 1, customer_id := 1, name := "srv", encrypted_value := [], fingerprint := "",
          consecutive_failures := 2 } false "err" 7).1.head? =
      some (Ev.history 5 "srv" (if false then "success" else "failure") "err")) ∧
    (1 : Nat) < 2 ∧ (3 : Nat) = 2 + 1 :=
  ⟨(probe_effect_order_amended { failure_threshold := some 3 } { id := 1, chat_id := 5 }
      { id := 1, customer_id := 1, name := "srv", encrypted_value := [], fingerprint := "",
        consecutive_failures := 2 } false "err" 7).1,
   (probe_effect_order_amended { failure_threshold := some 3 } { id := 1, chat_id := 5 }
      { id := 1, customer_id := 1, name := "srv", encrypted_value := [], fingerprint := "",
        consecutive_failures := 2 } false "err" 7).2.1 1 2
      (by decide) (by decide) (by decide) (by decide),
   (probe_effect_order_amended { failure_threshold := some 3 } { id := 1, chat_id := 5 }
      { id := 1, customer_id := 1, name := "srv", encrypted_value := [], fingerprint := "",
        consecutive_failures := 2 } false "err" 7).2.2 5 "srv" "err" 3 (by decide)⟩

/-! ### C10 — the DOWN threshold comes from the config, not the customer row -/

/-- C10: a probe's outcome is identical for two customers that differ
only in their stored `failure_threshold` column, and a DOWN alert is
enqueued exactly when the probe failed and
`consecutive_failures + 1 ≥ config.get("failure_threshold", 3)` — the
per-customer column is never read by `_check_target`. -/
theorem alert_threshold_from_config_only (cfg : Config) (cust : Customer) (t : Target)
    (success : Bool) (e : String) (now : Nat) (th1 th2 : Nat) :
    (check_target cfg { cust with failure_threshold := th1 } t success e now =
      check_target cfg { cust with failure_threshold := th2 } t success e now) ∧
    ((∃ ev ∈ (check_target cfg cust t success e now).1,
        ∃ chat al, ev = Ev.enqueue chat al ∧ al.isDown = true) ↔
      success = false ∧ t.consecutive_failures + 1 ≥ cfg.failure_threshold.getD 3) := by
  constructor
  · simp [check_target, alertEvents, update_target_checked]
  · constructor
    · rintro ⟨ev, hmem, chat, al, rfl, hdown⟩
      simp only [check_target, List.mem_cons] at hmem
      rcases hmem with h1 | h2 | h3
      · cases h1
      · cases h2
      · simp only [alertEvents] at h3
        by_cases hs : success
        · simp [hs] at h3
          simp_all [Alert.isDown]
        · simp [hs] at h3 ⊢
          exact h3.1
    · rintro ⟨hs, hth⟩
      refine ⟨Ev.enqueue cust.chat_id (Alert.down t.name (t.consecutive_failures + 1) e),
        ?_, _, _, rfl, rfl⟩
      simp [check_target, alertEvents, hs, hth]

/-- C10 witness: two customers with stored thresholds 7 and 9 behave
identically, and a failing probe at counter 2 under the default config
threshold 3 emits a DOWN alert. -/
theorem alert_threshold_from_config_only_witness :
    (check_target {} { id := 1, chat_id := 5, failure_threshold := 7 }
        { id := 1, customer_id := 1, name := "srv", encrypted_value := [], fingerprint := "",
          consecutive_failures := 2 } false "e" 1 =
      check_target {} { id := 1, chat_id := 5, failure_threshold := 9 }
        { id := 1, customer_id := 1, name := "srv", encrypted_value := [], fingerprint := "",
          consecutive_failures := 2 } false "e" 1) ∧
    (∃ ev ∈ (check_target {} { id := 1, chat_id := 5 }
        { id := 1, customer_id := 1, name := "srv", encrypted_value := [], fingerprint := "",
          consecutive_failures := 2 } false "e" 1).1,
      ∃ chat al, ev = Ev.enqueue chat al ∧ al.isDown = true) :=
  ⟨(alert_threshold_from_config_only {} { id := 1, chat_id := 5 }
      { id := 1, customer_id := 1, name := "srv", encrypted_value := [], fingerprint := "",
        consecutive_failures := 2 } false "e" 1 7 9).1,
   (alert_threshold_from_config_only {} { id := 1, chat_id := 5 }
      { id := 1, customer_id := 1, name := "srv", encrypted_value := [], fingerprint := "",
        consecutive_failures := 2 } false "e" 1 7 9).2.mpr ⟨rfl, by decide⟩⟩

/-! ### C6 — benchmark parser branch tie-breaks -/

lemma csvScan_skip (tI : List Char → Option Int) (tF : List Char → Option ℚ) (target : String)
    (pre rest : List String) (hpre : ∀ l ∈ pre, csvRowResult tI tF target l = none) :
    csvScan tI tF target (pre ++ rest) = csvScan tI tF target rest := by
  induction pre with
  | nil => simp
  | cons line pre ih =>
      have hline := hpre line (by simp)
      have hrest : ∀ l ∈ pre, csvRowResult tI tF target l = none :=
        fun l hl => hpre l (by simp [hl])
      rw [List.cons_append, csvScan]
      unfold csvRowResult at hline
      match hsplit : splitComma line.data with
      | [] => simp [hsplit] at hline ⊢; exact ih hrest
      | [p0] => simp [hsplit] at hline ⊢; exact ih hrest
      | [p0, p1] => simp [hsplit] at hline ⊢; exact ih hrest
      | p0 :: p1 :: p2 :: ps =>
          simp only [hsplit] at hline ⊢
          by_cases hname : pyStrip p0 = target.data
          · rw [if_pos hname] at hline ⊢
            match hI : tI (pyStrip p1), hF : tF (pyStrip p2) with
            | some ts, some v => rw [hI, hF] at hline; cases hline
            | some ts, none => exact ih hrest
            | none, some v => exact ih hrest
            | none, none => exact ih hrest
          · rw [if_neg hname] at hline ⊢
            exact ih hrest

lemma csvScan_cons_some (tI : List Char → Option Int) (tF : List Char → Option ℚ)
    (target : String) (line : String) (rest : List String) (r : Int × ℚ)
    (h : csvRowResult tI tF target line = some r) :
    csvScan tI tF target (line :: rest) = some r := by
  rw [csvScan]
  unfold csvRowResult at h
  match hsplit : splitComma line.data with
  | [] => simp [hsplit] at h
  | [p0] => simp [hsplit] at h
  | [p0, p1] => simp [hsplit] at h
  | p0 :: p1 :: p2 :: ps =>
      simp only [hsplit] at h ⊢
      by_cases hname : pyStrip p0 = target.data
      · rw [if_pos hname] at h ⊢
        match hI : tI (pyStrip p1), hF : tF (pyStrip p2) with
        | some ts, some v => rw [hI, hF] at h; exact h
        | some ts, none => rw [hI, hF] at h; cases h
        | none, some v => rw [hI, hF] at h; cases h
        | none, none => rw [hI, hF] at h; cases h
      · rw [if_neg hname] at h; cases h

lemma objsScan_skip (target : String) (pre rest : List BenchSeries)
    (hpre : ∀ i ∈ pre, i.name ≠ target) :
    objsScan target (pre ++ rest) = objsScan target rest := by
  induction pre with
  | nil => simp
  | cons item pre ih =>
      have hitem := hpre item (by simp)
      rw [List.cons_append, objsScan, if_neg hitem]
      exact ih fun i hi => hpre i (by simp [hi])

lemma objsScan_cons_match (target : String) (item : BenchSeries) (rest : List BenchSeries)
    (ds : List (List ℚ)) (p : List ℚ)
    (hname : item.name = target) (hdata : item.data = ds ++ [p]) (hp : p.length ≥ 2) :
    objsScan target (item :: rest) = some (pyTrunc p[0]!, p[1]!) := by
  rw [objsScan, if_pos hname, hdata]
  rw [List.getLast?_concat]
  simp [hp]

/-- C6: the three branches of `_parse_possible_structures` tie-break
differently.  The CSV branch returns the first row that matches the
target *and* parses, skipping unparseable rows (so earlier rows whose
per-row result is `none` — mismatch or `ValueError` — never abort the
scan); the list-of-objects branch returns the **last** data point of the
first matching series with a well-formed non-empty series; the mapping
branch returns the **last** data point of the series stored under the
target key.  Each branch returns `none` when nothing matches. -/
theorem parser_branch_tiebreaks (tI : List Char → Option Int) (tF : List Char → Option ℚ)
    (target : String) :
    (∀ (pre : List String) (line : String) (post : List String) (r : Int × ℚ),
      (∀ l ∈ pre, csvRowResult tI tF target l = none) →
      csvRowResult tI tF target line = some r →
      parse_possible_structures tI tF (.csv (pre ++ line :: post)) target = some r) ∧
    (∀ lines : List String, (∀ l ∈ lines, csvRowResult tI tF target l = none) →
      parse_possible_structures tI tF (.csv lines) target = none) ∧
    (∀ (pre : List BenchSeries) (item : BenchSeries) (post : List BenchSeries)
        (ds : List (List ℚ)) (p : List ℚ),
      (∀ i ∈ pre, i.name ≠ target) → item.name = target →
      item.data = ds ++ [p] → p.length ≥ 2 →
      parse_possible_structures tI tF (.objs (pre ++ item :: post)) target
        = some (pyTrunc p[0]!, p[1]!)) ∧
    (∀ items : List BenchSeries, (∀ i ∈ items, i.name ≠ target) →
      parse_possible_structures tI tF (.objs items) target = none) ∧
    (∀ (entries : List (String × List (List ℚ))) (ds : List (List ℚ)) (p : List ℚ),
      tableLookup target entries = some (ds ++ [p]) → p.length ≥ 2 →
      parse_possible_structures tI tF (.table entries) target
        = some (pyTrunc p[0]!, p[1]!)) ∧
    (∀ entries : List (String × List (List ℚ)), tableLookup target entries = none →
      parse_possible_structures tI tF (.table entries) target = none) := by
  refine ⟨?_, ?_, ?_, ?_, ?_, ?_⟩
  · intro pre line post r hpre hline
    have hne : ¬ (pre ++ line :: post).isEmpty := by simp
    simp only [parse_possible_structures, if_neg hne]
    rw [csvScan_skip tI tF target pre (line :: post) hpre]
    exact csvScan_cons_some tI tF target line post r hline
  · intro lines hall
    match lines with
    | [] => simp [parse_possible_structures]
    | l :: ls =>
        have hne : ¬ (l :: ls).isEmpty := by simp
        simp only [parse_possible_structures, if_neg hne]
        have h2 := csvScan_skip tI tF target (l :: ls) [] hall
        simpa [csvScan] using h2
  · intro pre item post ds p hpre hname hdata hp
    have hne : ¬ (pre ++ item :: post).isEmpty := by simp
    simp only [parse_possible_structures, if_neg hne]
    rw [objsScan_skip target pre (item :: post) hpre]
    exact objsScan_cons_match target item post ds p hname hdata hp
  · intro items hall
    match items with
    | [] => simp [parse_possible_structures]
    | i :: is2 =>
        have hne : ¬ (i :: is2).isEmpty := by simp
        simp only [parse_possible_structures, if_neg hne]
        have h2 := objsScan_skip target (i :: is2) [] hall
        simpa [objsScan] using h2
  · intro entries ds p hlook hp
    simp only [parse_possible_structures, hlook, List.getLast?_concat]
    simp [hp]
  · intro entries hlook
    simp [parse_possible_structures, hlook]

/-- C6 witness: the branch theorem applied to the repository's own test
vectors (test_benchmark.py), with an unparseable matching row
(`"turtle,nope,0.45"`) skipped by the CSV scan. -/
theorem parser_branch_tiebreaks_witness :
    parse_possible_structures toIntTest toFloatTest
      (.csv (["other,1600000300,0.30", "turtle,nope,0.45"] ++
        "turtle,1600000300,0.37" :: ["turtle,1600000400,0.45"])) "turtle"
      = some (1600000300, 37 / 100) ∧
    parse_possible_structures toIntTest toFloatTest
      (.objs ([] ++ { name := "turtle", data := [[1600000000, 3/10]] ++ [[1600000100, 2/5]] }
        :: [{ name := "other", data := [[1600000000, 1/5]] }])) "turtle"
      = some (pyTrunc (([1600000100, 2/5] : List ℚ))[0]!, (([1600000100, 2/5] : List ℚ))[1]!) ∧
    parse_possible_structures toIntTest toFloatTest
      (.table [("turtle", [[1600000000, 1/5]] ++ [[1600000200, 1/4]]),
               ("other", [[1600000000, 3/10]])]) "turtle"
      = some (pyTrunc (([1600000200, 1/4] : List ℚ))[0]!, (([1600000200, 1/4] : List ℚ))[1]!) := by
  refine ⟨?_, ?_, ?_⟩
  · exact (parser_branch_tiebreaks toIntTest toFloatTest "turtle").1
      ["other,1600000300,0.30", "turtle,nope,0.45"] "turtle,1600000300,0.37"
      ["turtle,1600000400,0.45"] (1600000300, 37 / 100)
      (by
        intro l hl
        simp only [List.mem_cons, List.not_mem_nil, or_false] at hl
        rcases hl with rfl | rfl <;> rfl)
      rfl
  · exact (parser_branch_tiebreaks toIntTest toFloatTest "turtle").2.2.1
      [] { name := "turtle", data := [[1600000000, 3/10]] ++ [[1600000100, 2/5]] }
      [{ name := "other", data := [[1600000000, 1/5]] }]
      [[1600000000, 3/10]] [1600000100, 2/5]
      (by intro i hi; cases hi) rfl rfl (by decide)
  · exact (parser_branch_tiebreaks toIntTest toFloatTest "turtle").2.2.2.2.1
      [("turtle", [[1600000000, 1/5]] ++ [[1600000200, 1/4]]),
       ("other", [[1600000000, 3/10]])]
      [[1600000000, 1/5]] [1600000200, 1/4]
      rfl (by decide)

/-! ### C7 — upsert semantics for targets -/

lemma upsertTargetList_insert (ev : List Nat) (fp : String) (cid : Nat) (name : String)
    (newId : Nat) (targets : List Target)
    (h : ∀ t ∈ targets, ¬ (t.customer_id = cid ∧ t.name = name)) :
    upsertTargetList ev fp cid name newId targets =
      targets ++ [{ id := newId, customer_id := cid, name := name,
                    encrypted_value := ev, fingerprint := fp,
                    enabled := true, last_checked := 0, consecutive_failures := 0 }] := by
  induction targets with
  | nil => simp [upsertTargetList]
  | cons t rest ih =>
      have ht := h t (by simp)
      rw [upsertTargetList, if_neg (by simp_all), List.cons_append]
      rw [ih fun u hu => h u (by simp [hu])]

lemma upsertTargetList_update (ev : List Nat) (fp : String) (cid : Nat) (name : String)
    (newId : Nat) (pre post : List Target) (t : Target)
    (hpre : ∀ u ∈ pre, ¬ (u.customer_id = cid ∧ u.name = name))
    (hcid : t.customer_id = cid) (hname : t.name = name) :
    upsertTargetList ev fp cid name newId (pre ++ t :: post) =
      pre ++ { t with encrypted_value := ev, fingerprint := fp, enabled := true } :: post := by
  induction pre with
  | nil =>
      simp only [List.nil_append]
      rw [upsertTargetList, if_pos (by simp [hcid, hname])]
  | cons u pre ih =>
      have hu := hpre u (by simp)
      rw [List.cons_append, upsertTargetList, if_neg (by simp_all), List.cons_append]
      rw [ih fun v hv => hpre v (by simp [hv])]

/-- C7: `upsert_target` either appends a fresh row (when no row with that
`(customer_id, name)` exists) with the column defaults
`enabled = true, last_checked = 0, consecutive_failures = 0`, or
overwrites exactly the first matching row's ciphertext and fingerprint
and sets `enabled := true`, leaving its id, name, failure counter and
last-checked timestamp — and every other row and every other table —
unchanged.  In both cases the stored ciphertext and fingerprint are
`encrypt` and `hash_value` of the same `"ip:port"` plaintext. -/
theorem upsert_target_insert_or_update (encrypt : String → List Nat)
    (hash_value : String → String) (cid : Nat) (name ip : String) (port : Nat)
    (newId : Nat) (s : Store) :
    ((∀ t ∈ s.targets, ¬ (t.customer_id = cid ∧ t.name = name)) →
      upsert_target encrypt hash_value cid name ip port newId s =
        { s with targets := s.targets ++
            [{ id := newId, customer_id := cid, name := name,
               encrypted_value := encrypt (ip ++ ":" ++ toString port),
               fingerprint := hash_value (ip ++ ":" ++ toString port),
               enabled := true, last_checked := 0, consecutive_failures := 0 }] }) ∧
    (∀ (pre post : List Target) (t : Target),
      s.targets = pre ++ t :: post →
      (∀ u ∈ pre, ¬ (u.customer_id = cid ∧ u.name = name)) →
      t.customer_id = cid → t.name = name →
      upsert_target encrypt hash_value cid name ip port newId s =
        { s with targets := pre ++
            { t with encrypted_value := encrypt (ip ++ ":" ++ toString port),
                     fingerprint := hash_value (ip ++ ":" ++ toString port),
                     enabled := true } :: post }) := by
  constructor
  · intro h
    simp only [upsert_target]
    rw [upsertTargetList_insert _ _ _ _ _ _ h]
  · intro pre post t hsplit hpre hcid hname
    simp only [upsert_target, hsplit]
    rw [upsertTargetList_update _ _ _ _ _ _ _ _ hpre hcid hname]

/-- C7 witness: both branches applied on concrete stores — an update that
overwrites ciphertext/fingerprint and re-enables a disabled row while its
counter (4) and last-checked timestamp (3) survive, and an insert into a
store whose only row has a different name. -/
theorem upsert_target_insert_or_update_witness :
    (upsert_target (fun _ => [7]) (fun _ => "fp") 1 "srv" "10.0.0.1" 80 2
        { subscriptions := [], customers := [],
          targets := [{ id := 1, customer_id := 1, name := "srv",
                        encrypted_value := [9], fingerprint := "g",
                        enabled := false, last_checked := 3, consecutive_failures := 4 }],
          benchmark_targets := [], history := [], audit_logs := [] } =
      { subscriptions := [], customers := [],
        targets := [{ id := 1, customer_id := 1, name := "srv",
                      encrypted_value := [7], fingerprint := "fp",
                      enabled := true, last_checked := 3, consecutive_failures := 4 }],
        benchmark_targets := [], history := [], audit_logs := [] }) ∧
    (upsert_target (fun _ => [7]) (fun _ => "fp") 1 "srv" "10.0.0.1" 80 2
        { subscriptions := [], customers := [],
          targets := [{ id := 1, customer_id := 1, name := "other",
                        encrypted_value := [9], fingerprint := "g" }],
          benchmark_targets := [], history := [], audit_logs := [] } =
      { subscriptions := [], customers := [],
        targets := [{ id := 1, customer_id := 1, name := "other",
                      encrypted_value := [9], fingerprint := "g" },
                    { id := 2, customer_id := 1, name := "srv",
                      encrypted_value := [7], fingerprint := "fp",
                      enabled := true, last_checked := 0, consecutive_failures := 0 }],
        benchmark_targets := [], history := [], audit_logs := [] }) := by
  constructor
  · exact (upsert_target_insert_or_update (fun _ => [7]) (fun _ => "fp") 1 "srv"
      "10.0.0.1" 80 2
      { subscriptions := [], customers := [],
        targets := [{ id := 1, customer_id := 1, name := "srv",
                      encrypted_value := [9], fingerprint := "g",
                      enabled := false, last_checked := 3, consecutive_failures := 4 }],
        benchmark_targets := [], history := [], audit_logs := [] }).2
      [] []
      { id := 1, customer_id := 1, name := "srv", encrypted_value := [9], fingerprint := "g",
        enabled := false, last_checked := 3, consecutive_failures := 4 }
      rfl (by intro u hu; cases hu) rfl rfl
  · exact (upsert_target_insert_or_update (fun _ => [7]) (fun _ => "fp") 1 "srv"
      "10.0.0.1" 80 2
      { subscriptions := [], customers := [],
        targets := [{ id := 1, customer_id := 1, name := "other",
                      encrypted_value := [9], fingerprint := "g" }],
        benchmark_targets := [], history := [], audit_logs := [] }).1
      (by
        intro t ht
        simp only [List.mem_cons, List.not_mem_nil, or_false] at ht
        subst ht
        simp)

/-! ### Toy AEAD: the contracts are satisfiable -/

lemma dup_cons (a : Nat) (x : Bytes) : dupBytes (a :: x) = a :: a :: dupBytes x := rfl

lemma undup_dup (x : Bytes) : undupBytes (dupBytes x) = some x := by
  induction x with
  | nil => rfl
  | cons a x ih => rw [dup_cons, undupBytes, if_pos rfl, ih]; rfl

lemma dup_inj {x y : Bytes} (h : dupBytes x = dupBytes y) : x = y := by
  have hx := undup_dup x
  have hy := undup_dup y
  rw [h] at hx
  rw [hx] at hy
  exact Option.some_injective _ hy

lemma undup_eq_dup : ∀ (c m : Bytes), undupBytes c = some m → c = dupBytes m
  | [], m, h => by
      have h2 : m = [] := by
        have h3 : some ([] : Bytes) = some m := h
        exact (Option.some.inj h3).symm
      subst h2
      rfl
  | [a], m, h => by
      have h3 : (none : Option Bytes) = some m := h
      cases h3
  | a :: b :: rest, m, h => by
      rw [undupBytes] at h
      split at h
      · rename_i hab
        cases hr : undupBytes rest with
        | some m2 =>
            rw [hr] at h
            simp at h
            have heq := undup_eq_dup rest m2 hr
            subst hab
            rw [← h, dup_cons, heq]
        | none => rw [hr] at h; simp at h
      · cases h

lemma dup_length (x : Bytes) : (dupBytes x).length = 2 * x.length := by
  induction x with
  | nil => rfl
  | cons a x ih => rw [dup_cons]; simp [ih]; omega

lemma dup_getElem (x : Bytes) (i : Nat) (hi : i < (dupBytes x).length)
    (h2 : i / 2 < x.length) : (dupBytes x)[i] = x[i / 2] := by
  induction x generalizing i with
  | nil => simp [dup_length] at hi
  | cons a x ih =>
      have hi2 : i < (a :: a :: dupBytes x).length := by
        rw [dup_cons] at hi; exact hi
      show (a :: a :: dupBytes x)[i] = (a :: x)[i / 2]
      match i with
      | 0 => simp
      | 1 => simp
      | i + 2 =>
          have hd : (i + 2) / 2 = i / 2 + 1 := by omega
          have hi3 : i < (dupBytes x).length := by
            simp at hi2; omega
          have hx2 : i / 2 < x.length := by
            rw [hd] at h2; simpa using h2
          simp only [List.getElem_cons_succ, hd]
          exact ih i hi3 hx2

lemma dup_getElem_idx (x : Bytes) (i j : Nat) (hi : i < (dupBytes x).length)
    (hij : i / 2 = j) (hj : j < x.length) : (dupBytes x)[i] = x[j] := by
  subst hij
  exact dup_getElem x i hi hj

lemma toyDec_none (k n c : Bytes) (h : undupBytes c = none) : toyAEAD.dec k n c = none := by
  simp [toyAEAD, h]

lemma toyDec_some (k n c m : Bytes) (h : undupBytes c = some m) :
    toyAEAD.dec k n c =
      if 44 ≤ m.length ∧ m.drop (m.length - 44) = n ++ k then
        some (m.take (m.length - 44))
      else none := by
  simp [toyAEAD, h]

lemma toyAEAD_correct : toyAEAD.Correct := by
  intro k n p hk hn
  have h1 : undupBytes (dupBytes (p ++ n ++ k)) = some (p ++ n ++ k) := undup_dup _
  have hlenm : (p ++ n ++ k).length = p.length + 44 := by simp [hk, hn]
  have hlen : (p ++ n ++ k).length - 44 = p.length := by omega
  have hdrop : (p ++ n ++ k).drop p.length = n ++ k := by
    rw [List.append_assoc, List.drop_left]
  have htake : (p ++ n ++ k).take p.length = p := by
    rw [List.append_assoc, List.take_left]
  show toyAEAD.dec k n (dupBytes (p ++ n ++ k)) = some p
  rw [toyDec_some k n _ _ h1, hlen, if_pos ⟨by omega, hdrop⟩, htake]

lemma toyAEAD_auth : toyAEAD.Auth := by
  intro k n c p h
  show c = dupBytes (p ++ n ++ k)
  cases hr : undupBytes c with
  | none => rw [toyDec_none k n c hr] at h; cases h
  | some m =>
      rw [toyDec_some k n c m hr] at h
      split at h
      · rename_i hcond
        obtain ⟨h44, hdrop⟩ := hcond
        have hp := Option.some.inj h
        have hc := undup_eq_dup c m hr
        have hm : m = p ++ (n ++ k) := by
          conv_lhs => rw [← List.take_append_drop (m.length - 44) m]
          rw [hp, hdrop]
        rw [hc, hm, ← List.append_assoc]
      · cases h

lemma toyAEAD_tagmin : toyAEAD.TagMin := by
  intro k n c p h
  cases hr : undupBytes c with
  | none => rw [toyDec_none k n c hr] at h; cases h
  | some m =>
      rw [toyDec_some k n c m hr] at h
      split at h
      · rename_i hcond
        have hc := undup_eq_dup c m hr
        have h2 := dup_length m
        rw [hc, h2]
        omega
      · cases h

lemma toyAEAD_binding : toyAEAD.Binding := by
  intro k n p k2 n2 p2 hk hk2 hn hn2 h
  replace h : dupBytes (p ++ n ++ k) = dupBytes (p2 ++ n2 ++ k2) := h
  have h2 := dup_inj h
  rw [List.append_assoc, List.append_assoc] at h2
  have hlen : (n ++ k).length = (n2 ++ k2).length := by simp [hk, hk2, hn, hn2]
  obtain ⟨hp, hnk⟩ := List.append_inj' h2 hlen
  obtain ⟨hn3, hk3⟩ := List.append_inj hnk (by rw [hn, hn2])
  exact ⟨hk3, hn3, hp⟩

lemma set_getElem_self_eq (l : Bytes) (i : Nat) (b : Nat) (hi : i < l.length)
    (hb : l[i] = b) : l.set i b = l := by
  apply List.ext_getElem (by rw [List.length_set])
  intro j hj hj2
  rcases eq_or_ne j i with rfl | hne
  · rw [List.getElem_set_self, ← hb]
  · rw [List.getElem_set_ne (Ne.symm hne)]

lemma toyAEAD_oneflip : toyAEAD.OneFlip := by
  intro k n p q i b hne heq
  replace hne : (dupBytes (p ++ n ++ k)).set i b ≠ dupBytes (p ++ n ++ k) := hne
  replace heq : (dupBytes (p ++ n ++ k)).set i b = dupBytes (q ++ n ++ k) := heq
  set w := p ++ n ++ k with hw
  set w2 := q ++ n ++ k with hw2
  by_cases hi : i < (dupBytes w).length
  · have hsetlen : ((dupBytes w).set i b).length = (dupBytes w).length := List.length_set _ _ _
    have hlen : (dupBytes w).length = (dupBytes w2).length := by
      rw [← heq, hsetlen]
    have hww : w.length = w2.length := by
      rw [dup_length, dup_length] at hlen; omega
    have hjw : i / 2 < w.length := by rw [dup_length] at hi; omega
    have hjw2 : i / 2 < w2.length := by omega
    have hiw2 : i < (dupBytes w2).length := by omega
    have hiset : i < ((dupBytes w).set i b).length := by omega
    have hpart : ∃ i2, i2 ≠ i ∧ i2 < (dupBytes w).length ∧ i2 / 2 = i / 2 := by
      rcases Nat.even_or_odd i with he | ho
      · refine ⟨i + 1, by omega, ?_, ?_⟩
        · rw [dup_length] at hi ⊢
          rcases he with ⟨c, hc⟩
          omega
        · rcases he with ⟨c, hc⟩
          omega
      · refine ⟨i - 1, ?_, by omega, ?_⟩
        · rcases ho with ⟨c, hc⟩
          omega
        · rcases ho with ⟨c, hc⟩
          omega
    obtain ⟨i2, hi2ne, hi2lt, hi2div⟩ := hpart
    have hi2set : i2 < ((dupBytes w).set i b).length := by omega
    have hi2w2 : i2 < (dupBytes w2).length := by omega
    have e1 : ((dupBytes w).set i b)[i] = b := List.getElem_set_self hiset
    have e2 : ((dupBytes w).set i b)[i] = (dupBytes w2)[i] := List.getElem_of_eq heq hiset
    have hb1 : b = w2[i / 2] := by
      rw [← e1, e2, dup_getElem w2 i hiw2 hjw2]
    have e3 : ((dupBytes w).set i b)[i2] = (dupBytes w)[i2] := by
      rw [List.getElem_set_ne (Ne.symm hi2ne)]
    have e4 : ((dupBytes w).set i b)[i2] = (dupBytes w2)[i2] := List.getElem_of_eq heq hi2set
    have l1 : (dupBytes w)[i2] = w[i / 2] := dup_getElem_idx w i2 (i / 2) hi2lt hi2div hjw
    have l2 : (dupBytes w2)[i2] = w2[i / 2] := dup_getElem_idx w2 i2 (i / 2) hi2w2 hi2div hjw2
    have hb2 : w[i / 2] = w2[i / 2] := by
      rw [← l1, ← e3, e4, l2]
    have hbw : (dupBytes w)[i] = b := by
      rw [dup_getElem w i hi hjw, hb2, ← hb1]
    exact hne (set_getElem_self_eq _ _ _ hi hbw)
  · exact hne (List.set_eq_of_length_le (by omega))

lemma getElem_idx_congr (l : Bytes) (i j : Nat) (h : i = j) (hi : i < l.length) :
    l[i] = l[j] := by subst h; rfl

/-! ### C4 — encrypt/decrypt round-trip -/

/-- C4: for any AEAD primitive satisfying the spec's round-trip contract,
a manager with a 256-bit derived key, a fresh 96-bit nonce and any
plaintext, `decrypt (encrypt p) = some p` — the 12-byte split in
`decrypt` exactly recovers the nonce `encrypt` prefixed. -/
theorem decrypt_encrypt_roundtrip (A : AEAD) (hA : A.Correct) (cm : CryptoManager)
    (nonce p : Bytes) (hk : cm.enc_key.length = 32) (hn : nonce.length = 12) :
    CryptoManager.decrypt A cm (CryptoManager.encrypt A cm nonce p) = some p := by
  unfold CryptoManager.decrypt CryptoManager.encrypt
  have ht : (nonce ++ A.enc cm.enc_key nonce p).take 12 = nonce := by
    rw [← hn, List.take_left]
  have hd : (nonce ++ A.enc cm.enc_key nonce p).drop 12 = A.enc cm.enc_key nonce p := by
    rw [← hn, List.drop_left]
  rw [ht, hd]
  exact hA _ _ _ hk hn

/-- C4 witness: the round-trip theorem on the executable toy AEAD with a
concrete key, nonce and plaintext. -/
theorem decrypt_encrypt_roundtrip_witness :
    CryptoManager.decrypt toyAEAD cmW (CryptoManager.encrypt toyAEAD cmW nonceW [5, 6, 7])
      = some [5, 6, 7] :=
  decrypt_encrypt_roundtrip toyAEAD toyAEAD_correct cmW nonceW [5, 6, 7]
    (by decide) (by decide)

/-! ### C5 — decrypt rejects every inauthentic blob -/

/-- C5: under the spec's AEAD contracts, (i) any blob that decrypts is
exactly an `encrypt` output of the returned plaintext under the same key
(with the blob's own first 12 bytes as nonce) — decrypt never returns
altered plaintext; (ii) flipping any single byte of an `encrypt` output
(in the nonce or in the ciphertext/tag part) makes `decrypt` fail;
(iii) a blob produced under a different derived key fails; (iv) any blob
shorter than the 12-byte nonce prefix fails. -/
theorem decrypt_rejects_inauthentic (A : AEAD) (hT : A.TagMin) (hAu : A.Auth)
    (hB : A.Binding) (hF : A.OneFlip) (cm cm2 : CryptoManager)
    (hk : cm.enc_key.length = 32) (hk2 : cm2.enc_key.length = 32) :
    (∀ blob p, CryptoManager.decrypt A cm blob = some p →
      blob = CryptoManager.encrypt A cm (blob.take 12) p) ∧
    (∀ (nonce p : Bytes) (i b : Nat) (hn : nonce.length = 12)
        (hi : i < (CryptoManager.encrypt A cm nonce p).length)
        (hb : b ≠ (CryptoManager.encrypt A cm nonce p)[i]),
      CryptoManager.decrypt A cm ((CryptoManager.encrypt A cm nonce p).set i b) = none) ∧
    (∀ nonce p, nonce.length = 12 → cm.enc_key ≠ cm2.enc_key →
      CryptoManager.decrypt A cm2 (CryptoManager.encrypt A cm nonce p) = none) ∧
    (∀ blob, blob.length < 12 → CryptoManager.decrypt A cm blob = none) := by
  refine ⟨?_, ?_, ?_, ?_⟩
  · intro blob p h
    unfold CryptoManager.decrypt at h
    have h2 := hAu _ _ _ _ h
    conv_lhs => rw [← List.take_append_drop 12 blob]
    rw [h2]
    rfl
  · intro nonce p i b hn hi hb
    by_contra hc
    obtain ⟨q, hq⟩ := Option.ne_none_iff_exists.mp hc
    replace hq := hq.symm
    unfold CryptoManager.decrypt at hq
    unfold CryptoManager.encrypt at hq hb hi
    have htake0 : (nonce ++ A.enc cm.enc_key nonce p).take 12 = nonce := by
      rw [← hn, List.take_left]
    have hdrop0 : (nonce ++ A.enc cm.enc_key nonce p).drop 12 = A.enc cm.enc_key nonce p := by
      rw [← hn, List.drop_left]
    have htake : ((nonce ++ A.enc cm.enc_key nonce p).set i b).take 12 = nonce.set i b := by
      rw [List.set_take, htake0]
    by_cases hcase : i < 12
    · have hdrop : ((nonce ++ A.enc cm.enc_key nonce p).set i b).drop 12 =
          A.enc cm.enc_key nonce p := by
        rw [List.drop_set, if_pos hcase, hdrop0]
      rw [htake, hdrop] at hq
      have h2 := hAu _ _ _ _ hq
      have hns : (nonce.set i b).length = 12 := by rw [List.length_set]; exact hn
      obtain ⟨-, hnn, -⟩ := hB _ _ _ _ _ _ hk hk hn hns h2
      have hin : i < nonce.length := by omega
      have hinset : i < (nonce.set i b).length := by rw [List.length_set]; omega
      have hbn : b ≠ nonce[i] := by
        intro hbe
        apply hb
        rw [List.getElem_append_left hin, hbe]
      apply hbn
      have e1 : (nonce.set i b)[i] = b := List.getElem_set_self hinset
      have e2 := List.getElem_of_eq hnn hin
      rw [e2, e1]
    · have hEi : i - 12 < (A.enc cm.enc_key nonce p).length := by
        rw [List.length_append] at hi; omega
      have hdrop : ((nonce ++ A.enc cm.enc_key nonce p).set i b).drop 12 =
          (A.enc cm.enc_key nonce p).set (i - 12) b := by
        rw [List.drop_set, if_neg hcase, hdrop0]
      rw [htake, hdrop] at hq
      have htn : nonce.set i b = nonce := List.set_eq_of_length_le (by omega)
      rw [htn] at hq
      have h2 := hAu _ _ _ _ hq
      have hset_ne : (A.enc cm.enc_key nonce p).set (i - 12) b ≠ A.enc cm.enc_key nonce p := by
        intro he
        apply hb
        have hsl : i - 12 < ((A.enc cm.enc_key nonce p).set (i - 12) b).length := by
          rw [List.length_set]; omega
        have e1 : ((A.enc cm.enc_key nonce p).set (i - 12) b)[i - 12] = b :=
          List.getElem_set_self hsl
        have e2 := List.getElem_of_eq he hsl
        rw [e1] at e2
        rw [List.getElem_append_right (by omega : nonce.length ≤ i)]
        rw [getElem_idx_congr _ (i - nonce.length) (i - 12) (by omega) (by omega)]
        exact e2
      exact hF _ _ _ q _ _ hset_ne h2
  · intro nonce p hn hne
    by_contra hc
    obtain ⟨q, hq⟩ := Option.ne_none_iff_exists.mp hc
    replace hq := hq.symm
    unfold CryptoManager.decrypt at hq
    unfold CryptoManager.encrypt at hq
    have htake0 : (nonce ++ A.enc cm.enc_key nonce p).take 12 = nonce := by
      rw [← hn, List.take_left]
    have hdrop0 : (nonce ++ A.enc cm.enc_key nonce p).drop 12 = A.enc cm.enc_key nonce p := by
      rw [← hn, List.drop_left]
    rw [htake0, hdrop0] at hq
    have h2 := hAu _ _ _ _ hq
    obtain ⟨hkk, -, -⟩ := hB _ _ _ _ _ _ hk hk2 hn hn h2
    exact hne hkk
  · intro blob hlen
    by_contra hc
    obtain ⟨q, hq⟩ := Option.ne_none_iff_exists.mp hc
    replace hq := hq.symm
    unfold CryptoManager.decrypt at hq
    have hnil : blob.drop 12 = [] := List.drop_eq_nil_of_le (by omega)
    rw [hnil] at hq
    have h2 := hT _ _ _ _ hq
    simp at h2

/-- C5 witness: the rejection theorem on the executable toy AEAD — an
authentic blob is an encrypt output; flipping byte 20 kills it; a manager
with a different key rejects it; a 3-byte blob is rejected. -/
theorem decrypt_rejects_inauthentic_witness :
    (CryptoManager.encrypt toyAEAD cmW nonceW [5] =
      CryptoManager.encrypt toyAEAD cmW
        ((CryptoManager.encrypt toyAEAD cmW nonceW [5]).take 12) [5]) ∧
    CryptoManager.decrypt toyAEAD cmW
      ((CryptoManager.encrypt toyAEAD cmW nonceW [5]).set 20 9) = none ∧
    CryptoManager.decrypt toyAEAD cmW2 (CryptoManager.encrypt toyAEAD cmW nonceW [5]) = none ∧
    CryptoManager.decrypt toyAEAD cmW [1, 2, 3] = none :=
  ⟨(decrypt_rejects_inauthentic toyAEAD toyAEAD_tagmin toyAEAD_auth toyAEAD_binding
      toyAEAD_oneflip cmW cmW2 (by decide) (by decide)).1
      (CryptoManager.encrypt toyAEAD cmW nonceW [5]) [5] (by decide),
   (decrypt_rejects_inauthentic toyAEAD toyAEAD_tagmin toyAEAD_auth toyAEAD_binding
      toyAEAD_oneflip cmW cmW2 (by decide) (by decide)).2.1
      nonceW [5] 20 9 (by decide) (by decide) (by decide),
   (decrypt_rejects_inauthentic toyAEAD toyAEAD_tagmin toyAEAD_auth toyAEAD_binding
      toyAEAD_oneflip cmW cmW2 (by decide) (by decide)).2.2.1
      nonceW [5] (by decide) (by decide),
   (decrypt_rejects_inauthentic toyAEAD toyAEAD_tagmin toyAEAD_auth toyAEAD_binding
      toyAEAD_oneflip cmW cmW2 (by decide) (by decide)).2.2.2
      [1, 2, 3] (by decide)⟩

/-! ### C9 — fingerprint determinism and shape -/

lemma byteHex_def (b : Nat) : byteHex b = [hexChar (b / 16), hexChar (b % 16)] := rfl

lemma string_mk_length (l : List Char) : (String.mk l).length = l.length := rfl

lemma hexChar_inj_lt : ∀ d < 16, ∀ d2 < 16, hexChar d = hexChar d2 → d = d2 := by decide

lemma hexChar_mem_lt : ∀ d < 16, hexChar d ∈ "0123456789abcdef".toList := by decide

lemma flatMap_byteHex_length (bs : Bytes) : (bs.flatMap byteHex).length = 2 * bs.length := by
  induction bs with
  | nil => rfl
  | cons b bs ih => simp [List.flatMap_cons, byteHex_def, ih]; omega

lemma flatMap_byteHex_inj : ∀ (xs ys : Bytes), (∀ b ∈ xs, b < 256) → (∀ b ∈ ys, b < 256) →
    xs.flatMap byteHex = ys.flatMap byteHex → xs = ys
  | [], [], _, _, _ => rfl
  | [], y :: ys, _, _, h => by simp [List.flatMap_cons, byteHex_def] at h
  | x :: xs, [], _, _, h => by simp [List.flatMap_cons, byteHex_def] at h
  | x :: xs, y :: ys, hx, hy, h => by
      simp only [List.flatMap_cons, byteHex_def, List.cons_append, List.nil_append,
        List.cons.injEq] at h
      obtain ⟨h1, h2, h3⟩ := h
      have hxb := hx x (by simp)
      have hyb := hy y (by simp)
      have e1 := hexChar_inj_lt (x / 16) (by omega) (y / 16) (by omega) h1
      have e2 := hexChar_inj_lt (x % 16) (by omega) (y % 16) (by omega) h2
      have hxy : x = y := by omega
      have h4 := flatMap_byteHex_inj xs ys (fun b hb => hx b (by simp [hb]))
        (fun b hb => hy b (by simp [hb])) h3
      rw [hxy, h4]

/-- C9: `hash_value` is deterministic — two managers built from the same
master secret through the same KDF produce identical fingerprints; the
output is always 64 characters, all lowercase hex digits (assuming the
HMAC primitive returns 32 bytes); and the hex encoding is injective, so
fingerprints of two plaintexts differ exactly when the underlying
HMAC-SHA256 values differ — the wrapper introduces no collisions. -/
theorem hash_value_deterministic_64_hex (hmacFn : Bytes → Bytes → Bytes)
    (kdf : Bytes → Bytes → Bytes) (master v v1 v2 : Bytes)
    (hlen : ∀ k m, (hmacFn k m).length = 32)
    (hbyte : ∀ k m b, b ∈ hmacFn k m → b < 256) :
    (∀ cm1 cm2 : CryptoManager, cm1 = mkCryptoManager kdf master →
      cm2 = mkCryptoManager kdf master →
      CryptoManager.hash_value hmacFn cm1 v = CryptoManager.hash_value hmacFn cm2 v) ∧
    (CryptoManager.hash_value hmacFn (mkCryptoManager kdf master) v).length = 64 ∧
    (∀ c ∈ (CryptoManager.hash_value hmacFn (mkCryptoManager kdf master) v).toList,
      c ∈ "0123456789abcdef".toList) ∧
    (hmacFn (mkCryptoManager kdf master).hmac_key v1 ≠
        hmacFn (mkCryptoManager kdf master).hmac_key v2 →
      CryptoManager.hash_value hmacFn (mkCryptoManager kdf master) v1 ≠
        CryptoManager.hash_value hmacFn (mkCryptoManager kdf master) v2) := by
  refine ⟨?_, ?_, ?_, ?_⟩
  · rintro cm1 cm2 rfl rfl; rfl
  · show (hexdigest _).length = 64
    unfold hexdigest
    rw [string_mk_length, flatMap_byteHex_length, hlen]
  · intro c hc
    replace hc : c ∈ (hmacFn (mkCryptoManager kdf master).hmac_key v).flatMap byteHex := hc
    rw [List.mem_flatMap] at hc
    obtain ⟨b, hbm, hcb⟩ := hc
    have hb256 := hbyte _ _ _ hbm
    rw [byteHex_def] at hcb
    simp only [List.mem_cons, List.not_mem_nil, or_false] at hcb
    rcases hcb with rfl | rfl
    · exact hexChar_mem_lt (b / 16) (by omega)
    · exact hexChar_mem_lt (b % 16) (by omega)
  · intro hne heq
    apply hne
    replace heq :
        String.mk ((hmacFn (mkCryptoManager kdf master).hmac_key v1).flatMap byteHex) =
        String.mk ((hmacFn (mkCryptoManager kdf master).hmac_key v2).flatMap byteHex) := heq
    have h2 := congrArg String.data heq
    exact flatMap_byteHex_inj _ _ (fun b hb => hbyte _ _ _ hb) (fun b hb => hbyte _ _ _ hb) h2

/-- C9 witness: the theorem applied to the executable `hmacW` stand-in
(32 bytes, all below 256) on `v = [1]`, `v1 = [1]`, `v2 = [2]`, whose
HMAC values differ in the final checksum byte. -/
theorem hash_value_deterministic_64_hex_witness :
    (CryptoManager.hash_value hmacW (mkCryptoManager (fun _ _ => List.replicate 32 1) [])
      [1]).length = 64 ∧
    (CryptoManager.hash_value hmacW (mkCryptoManager (fun _ _ => List.replicate 32 1) []) [1] ≠
      CryptoManager.hash_value hmacW (mkCryptoManager (fun _ _ => List.replicate 32 1) []) [2]) :=
  ⟨(hash_value_deterministic_64_hex hmacW (fun _ _ => List.replicate 32 1) [] [1] [1] [2]
      (fun k m => by simp [hmacW])
      (fun k m b hb => by
        simp only [hmacW, List.mem_append, List.mem_replicate, List.mem_cons,
          List.not_mem_nil, or_false] at hb
        rcases hb with ⟨-, rfl⟩ | rfl
        · omega
        · exact Nat.mod_lt _ (by omega))).2.1,
   (hash_value_deterministic_64_hex hmacW (fun _ _ => List.replicate 32 1) [] [1] [1] [2]
      (fun k m => by simp [hmacW])
      (fun k m b hb => by
        simp only [hmacW, List.mem_append, List.mem_replicate, List.mem_cons,
          List.not_mem_nil, or_false] at hb
        rcases hb with ⟨-, rfl⟩ | rfl
        · omega
        · exact Nat.mod_lt _ (by omega))).2.2.2 (by decide)⟩

end SysAlert
